import Mathlib

/-!
Shallow embedding of the MultiModal_RAG repository (Python) in Lean 4,
with theorems settling the specification claims about it.

Source files embedded here:
 - src/modules/rag_pipeline.py   (chunk_text_with_overlap)
 - src/modules/retriever.py      (retrieve_chunks, retrieve_answer)
 - src/modules/embedding_store.py (add_to_index, save_index, module-level load)
 - src/modules/models.py         (load_faiss_index, load_metadata_store)
 - src/api/routes.py             (reset_all, final recreate-and-flush step)

Modelling conventions:
 - Python `str.split()` is splitting on whitespace and dropping empty pieces.
 - Python list slicing and (possibly negative) indexing get explicit
   definitions (`pySliceList`, `pyGet`) with Python's semantics.
 - Python dicts (insertion-ordered) are association lists; assignment
   updates in place or appends (`dictSet`), lookup is `dictGet`.
 - The `while` loop of the chunker is fuel-based: `none` means the fuel ran
   out, which on this loop happens exactly when the Python loop diverges.
 - Embedding vectors are `List Int` (the exact float values never matter to
   any claim; only L2-nearest ordering and counts do); the sentence
   transformer is an oracle parameter `encode : String → List Int`.
 - `ollama.chat` is an oracle parameter `chat : ChatCall → String`; the
   embedding of `retrieve_answer` also returns the list of chat calls it
   made, so that "number of language-model calls" is observable.
 - FAISS `IndexFlatL2.search` returns, for `k` requested neighbours, the
   indices of the stored vectors ordered by increasing L2 distance (ties in
   insertion order), padded with `-1` when `k` exceeds `ntotal` — exactly
   the documented FAISS behaviour the Python code relies on.
 - The file system is an association list from path to artifact content;
   `save_index` is embedded as the list of file operations it performs.
-/

/-! ## Python primitives -/

/-- Worker for `pywords`: scan the characters, `cur` is the reversed
current word. -/
def pywordsAux : List Char → List Char → List String
  | [], cur => if cur.isEmpty then [] else [String.mk cur.reverse]
  | c :: cs, cur =>
    if c.isWhitespace then
      if cur.isEmpty then pywordsAux cs []
      else String.mk cur.reverse :: pywordsAux cs []
    else pywordsAux cs (c :: cur)

/-- Python `text.split()`: split on runs of whitespace, discard empty
pieces (so leading, trailing and repeated whitespace yield no words). -/
def pywords (text : String) : List String :=
  pywordsAux text.toList []

/-- Python list slicing `xs[a:b]` (step 1) with int bounds, including the
clamping and negative-index semantics. -/
def pySliceList {α : Type} (xs : List α) (a b : Int) : List α :=
  let n : Int := xs.length
  let a' : Int := if a < 0 then max 0 (n + a) else min a n
  let b' : Int := if b < 0 then max 0 (n + b) else min b n
  (xs.drop a'.toNat).take (b' - a').toNat

/-- Python list indexing `xs[i]`, including negative indices;
`none` is an `IndexError`. -/
def pyGet {α : Type} (xs : List α) (i : Int) : Option α :=
  if 0 ≤ i then xs.get? i.toNat
  else
    let j : Int := (xs.length : Int) + i
    if 0 ≤ j then xs.get? j.toNat else none

/-! ## `chunk_text_with_overlap` (src/modules/rag_pipeline.py lines 14-23)

```python
def chunk_text_with_overlap(text, chunk_size=300, overlap=50):
    words = text.split()
    chunks = []
    start = 0
    while start < len(words):
        end = start + chunk_size
        chunk = " ".join(words[start:end])
        chunks.append(chunk)
        start += chunk_size - overlap
    return chunks
```
-/

/-- The `while` loop of `chunk_text_with_overlap`, fuel-based: state is
`start` (a Python int) and the accumulated `chunks`; `none` means the fuel
was exhausted before the loop finished. -/
def chunkLoop (words : List String) (chunk_size overlap : Int) :
    Nat → Int → List String → Option (List String)
  | 0, _, _ => none
  | fuel + 1, start, chunks =>
    if start < (words.length : Int) then
      let e := start + chunk_size
      let chunk := String.intercalate " " (pySliceList words start e)
      chunkLoop words chunk_size overlap fuel (start + (chunk_size - overlap))
        (chunks ++ [chunk])
    else
      some chunks

/-- `chunk_text_with_overlap(text, chunk_size, overlap)` run with `fuel`
loop iterations allowed. -/
def chunk_text_with_overlap (text : String) (chunk_size overlap : Int)
    (fuel : Nat) : Option (List String) :=
  chunkLoop (pywords text) chunk_size overlap fuel 0 []

/-! Spec-side definition (from the spec's words, for the refinement claim
C1): sliding windows of `size` words advancing by `step` words, the final
window possibly shorter. -/

/-- Fuel-based worker for `specWindows`. -/
def specWindowsAux (size step : Nat) : Nat → List String → List (List String)
  | 0, _ => []
  | _, [] => []
  | fuel + 1, ws => ws.take size :: specWindowsAux size step fuel (ws.drop step)

/-- Sliding windows of `size` words advancing by `step` words per step;
the final window may be shorter than `size` (spec-side definition). -/
def specWindows (ws : List String) (size step : Nat) : List (List String) :=
  specWindowsAux size step ws.length ws

/-! ## Data model of the stores

`metadata_store` is a Python dict from chunk id to a metadata record
(src/modules/embedding_store.py lines 28-34); the FAISS index holds the
embedding vectors in insertion order. -/

/-- One metadata record, as built by `add_to_index`. -/
structure ChunkMeta where
  id : String
  modality : String
  source_file : String
  page_num : Option Nat
  text_excerpt : String
deriving DecidableEq

/-- The `metadata_store` dict: insertion-ordered association list. -/
abbrev MetadataStore := List (String × ChunkMeta)

/-- Python dict lookup `ms[k]`; `none` is a `KeyError`. -/
def dictGet (ms : MetadataStore) (k : String) : Option ChunkMeta :=
  (ms.find? (fun p => p.1 = k)).map (fun p => p.2)

/-- Python dict assignment `ms[k] = v`: replace in place if the key
exists, append otherwise (dicts preserve insertion order). -/
def dictSet : MetadataStore → String → ChunkMeta → MetadataStore
  | [], k, v => [(k, v)]
  | (k', v') :: rest, k, v =>
    if k' = k then (k, v) :: rest else (k', v') :: dictSet rest k v

/-- A FAISS `IndexFlatL2`: fixed dimensionality plus the stored vectors in
insertion order. -/
structure FaissIndex where
  dim : Nat
  vectors : List (List Int)
deriving DecidableEq

/-- `index.ntotal`. -/
def FaissIndex.ntotal (ix : FaissIndex) : Nat := ix.vectors.length

/-- Squared L2 distance between two vectors. -/
def l2sq (u v : List Int) : Int :=
  (List.zipWith (fun a b => (a - b) * (a - b)) u v).foldl (fun a b => a + b) 0

/-- Insert `(label, distance)` into a distance-sorted list, after entries
with an equal distance (so that the sort below is stable). -/
def insertByDist (p : Nat × Int) : List (Nat × Int) → List (Nat × Int)
  | [] => [p]
  | q :: qs => if p.2 < q.2 then p :: q :: qs else q :: insertByDist p qs

/-- FAISS `index.search(q, k)` label output: indices of the stored vectors
ordered by increasing L2 distance to `q` (ties in insertion order), padded
with `-1` labels when `k` exceeds `ntotal`. -/
def FaissIndex.search (ix : FaissIndex) (q : List Int) (k : Nat) : List Int :=
  let dists := ix.vectors.enum.map (fun p => (p.1, l2sq q p.2))
  let sorted := dists.foldl (fun acc p => insertByDist p acc) []
  let top := (sorted.map (fun p => p.1)).take k
  top.map (fun i => (i : Int)) ++ List.replicate (k - top.length) (-1)

/-! ## `retrieve_chunks` (src/modules/retriever.py lines 17-38)

```python
def retrieve_chunks(query, top_k=3):
    try:
        ntotal = getattr(index, 'ntotal', 0)
    except Exception:
        ntotal = 0
    if ntotal == 0 or not metadata_store:
        return []
    q_emb = EMBEDDING_MODEL.encode([query])
    D, I = index.search(q_emb, top_k)
    results = []
    all_keys = list(metadata_store.keys())
    for idx in I[0]:
        chunk_id = all_keys[idx]
        meta = metadata_store[chunk_id]
        results.append((meta["text_excerpt"], meta))
    return results
```

`encode` stands for `EMBEDDING_MODEL.encode`; `none` is an uncaught
exception (`IndexError` from `all_keys[idx]` or `KeyError` from
`metadata_store[chunk_id]`). -/

/-- The embedding of `retrieve_chunks`. -/
def retrieve_chunks (encode : String → List Int) (index : FaissIndex)
    (metadata_store : MetadataStore) (query : String) (top_k : Nat) :
    Option (List (String × ChunkMeta)) :=
  if index.ntotal = 0 ∨ metadata_store = [] then some []
  else
    let q_emb := encode query
    let labels := index.search q_emb top_k
    let all_keys := metadata_store.map (fun p => p.1)
    labels.foldlM
      (fun results idx => do
        let chunk_id ← pyGet all_keys idx
        let meta ← dictGet metadata_store chunk_id
        pure (results ++ [(meta.text_excerpt, meta)]))
      []

/-- Concrete metadata record used in several concrete evaluations below. -/
def meta0 : ChunkMeta :=
  ⟨"k0", "text", "doc.pdf", some 1, "hello world"⟩

/-- A 384-dimensional zero vector (the MiniLM dimensionality the code
hard-codes). -/
def vec0 : List Int := List.replicate 384 0

/-- Encoder oracle that embeds everything to the zero vector. -/
def encode0 : String → List Int := fun _ => vec0

/-- A one-vector index of the code's fixed dimensionality 384. -/
def ix1 : FaissIndex := ⟨384, [vec0]⟩

/-- A one-record metadata store matching `ix1`. -/
def ms1 : MetadataStore := [("k0", meta0)]

/-! ## `retrieve_answer` (src/modules/retriever.py lines 40-95)

`ollama.chat` is the oracle `chat : ChatCall → String` (its reply content
for a given system + user message pair). The embedding returns the reply
the Python function returns together with the list of chat calls it made,
in order, so that the number of language-model calls is observable.
`none` is an uncaught exception escaping from `retrieve_chunks`. -/

/-- One `ollama.chat` request: system message and user message. -/
structure ChatCall where
  system : String
  user : String
deriving DecidableEq

/-- The fixed reply `retrieve_answer` returns when nothing is indexed. -/
def noDocsMsg : String :=
  "No documents are indexed yet. Please upload a PDF/Image/Audio via /upload before asking questions."

/-- Rendering of `meta.get('page_num', 'N/A')` in the citation line: the
key is always present (possibly bound to `None`), so Python renders the
value, never the `'N/A'` default. -/
def pageStr : Option Nat → String
  | some n => toString n
  | none => "None"

/-- The embedding of `retrieve_answer`: the returned reply string plus the
ordered list of chat calls made. -/
def retrieve_answer (chat : ChatCall → String) (encode : String → List Int)
    (index : FaissIndex) (metadata_store : MetadataStore) (query : String)
    (top_k : Nat) : Option (String × List ChatCall) :=
  if index.ntotal = 0 ∨ metadata_store = [] then
    some (noDocsMsg, [])
  else
    let instruction :=
      "You are an assistant with access to a vector store of documents.\n" ++
      "Decide what information you need to answer the user's question. " ++
      "Return a clear query or keywords for retrieval.\n" ++
      "User Question: " ++ query
    let hintCall : ChatCall := ⟨"You are a helpful expert assistant.", instruction⟩
    let retrieval_hint := chat hintCall
    match retrieve_chunks encode index metadata_store retrieval_hint top_k with
    | none => none
    | some chunks =>
      let context_text := chunks.foldl
        (fun acc p =>
          acc ++ "[Source: " ++ p.2.source_file ++ ", page: " ++
            pageStr p.2.page_num ++ "]\n" ++ p.1 ++ "\n\n")
        ""
      let final_prompt :=
        "Answer the question using ONLY the context below.\n\n" ++
        "Context:\n" ++ context_text ++ "\nQuestion: " ++ query
      let answerCall : ChatCall := ⟨"You are a helpful expert assistant.", final_prompt⟩
      some (chat answerCall, [hintCall, answerCall])

/-! ## `add_to_index` (src/modules/embedding_store.py lines 23-34)

```python
def add_to_index(text, modality, source_file, page_num=None):
    chunk_id = str(uuid.uuid4())
    embedding = EMBEDDING_MODEL.encode([text])
    index.add(embedding)
    metadata_store[chunk_id] = {
        "id": chunk_id, "modality": modality, "source_file": source_file,
        "page_num": page_num, "text_excerpt": text}
```

`uuid.uuid4()` is nondeterministic; the embedding takes the generated id
as an argument, and theorems about add sequences quantify over the id
sequence (with distinctness where uuid freshness matters). -/

/-- The embedding of `add_to_index`, with the freshly generated
`chunk_id` made explicit. -/
def add_to_index (encode : String → List Int)
    (st : FaissIndex × MetadataStore) (chunk_id text modality source_file : String)
    (page_num : Option Nat) : FaissIndex × MetadataStore :=
  let embedding := encode text
  let index : FaissIndex := ⟨st.1.dim, st.1.vectors ++ [embedding]⟩
  let meta : ChunkMeta := ⟨chunk_id, modality, source_file, page_num, text⟩
  (index, dictSet st.2 chunk_id meta)

/-- One queued `add_to_index` call: the generated uuid plus the arguments. -/
structure AddInput where
  chunk_id : String
  text : String
  modality : String
  source_file : String
  page_num : Option Nat
deriving DecidableEq

/-- The metadata record the add for `inp` stores. -/
def mkMeta (inp : AddInput) : ChunkMeta :=
  ⟨inp.chunk_id, inp.modality, inp.source_file, inp.page_num, inp.text⟩

/-- Run a sequence of `add_to_index` calls starting from the empty store
(`faiss.IndexFlatL2(384)` and `{}`). -/
def runAdds (encode : String → List Int) (inputs : List AddInput) :
    FaissIndex × MetadataStore :=
  inputs.foldl
    (fun st inp =>
      add_to_index encode st inp.chunk_id inp.text inp.modality
        inp.source_file inp.page_num)
    (⟨384, []⟩, [])

/-- The metadata-store projection of a sequence of adds: the successive
dict assignments `add_to_index` performs. -/
def addAllMeta (ms : MetadataStore) (inputs : List AddInput) : MetadataStore :=
  inputs.foldl (fun m inp => dictSet m inp.chunk_id (mkMeta inp)) ms

/-! ## Persistence (src/modules/embedding_store.py, src/modules/models.py)

The file system is an association list from path to artifact content.
`save_index` (lines 36-39) is embedded as the list of file operations it
performs, so that what an interruption between them leaves behind is
expressible. -/

/-- Content of a persisted artifact: a FAISS index file or the metadata
JSON file. -/
inductive FileContent where
  | idx (vs : List (List Int))
  | meta (ms : MetadataStore)
deriving DecidableEq

/-- A file-system operation. -/
inductive FsOp where
  | writeFile (path : String) (content : FileContent)
  | rename (src dst : String)
deriving DecidableEq

/-- The file system: paths mapped to contents. -/
abbrev FsState := List (String × FileContent)

/-- Read a file. -/
def fsGet (s : FsState) (path : String) : Option FileContent :=
  (s.find? (fun p => p.1 = path)).map (fun p => p.2)

/-- Write a file (create or overwrite). -/
def fsSet : FsState → String → FileContent → FsState
  | [], path, c => [(path, c)]
  | (p, c') :: rest, path, c =>
    if p = path then (path, c) :: rest else (p, c') :: fsSet rest path c

/-- Apply one file-system operation. -/
def applyOp (s : FsState) : FsOp → FsState
  | .writeFile path c => fsSet s path c
  | .rename src dst =>
    match fsGet s src with
    | some c => fsSet (s.filter (fun p => p.1 ≠ src)) dst c
    | none => s

/-- Apply a list of file-system operations in order. -/
def runOps (s : FsState) (ops : List FsOp) : FsState :=
  ops.foldl applyOp s

/-- `INDEX_FILE`. -/
def INDEX_FILE : String := "vectorstore/index.faiss"

/-- `METADATA_FILE`. -/
def METADATA_FILE : String := "vectorstore/metadata.json"

/-- The file operations `save_index` performs, in order:

```python
def save_index():
    faiss.write_index(index, INDEX_FILE)
    with open(METADATA_FILE, "w", encoding="utf-8") as f:
        json.dump(metadata_store, f, indent=2, ensure_ascii=False)
```

both are direct in-place writes to the final paths. -/
def save_index_ops (index : FaissIndex) (metadata_store : MetadataStore) :
    List FsOp :=
  [.writeFile INDEX_FILE (.idx index.vectors),
   .writeFile METADATA_FILE (.meta metadata_store)]

/-- Number of vectors in the persisted index artifact, if readable. -/
def idxCount (s : FsState) : Option Nat :=
  (fsGet s INDEX_FILE).bind
    (fun c => match c with | .idx vs => some vs.length | _ => none)

/-- Number of records in the persisted metadata artifact, if readable. -/
def metaCount (s : FsState) : Option Nat :=
  (fsGet s METADATA_FILE).bind
    (fun c => match c with | .meta ms => some ms.length | _ => none)

/-- The module-level load of src/modules/embedding_store.py lines 14-21:

```python
if os.path.exists(INDEX_FILE):
    index = faiss.read_index(INDEX_FILE)
    with open(METADATA_FILE, "r", encoding="utf-8") as f:
        metadata_store = json.load(f)
else:
    index = faiss.IndexFlatL2(384)
    metadata_store = {}
```

`.error` is an uncaught exception; no count verification is performed. -/
def embedding_store_load (s : FsState) :
    Except String (FaissIndex × MetadataStore) :=
  match fsGet s INDEX_FILE with
  | some (.idx vs) =>
    match fsGet s METADATA_FILE with
    | some (.meta ms) => .ok (⟨384, vs⟩, ms)
    | some _ => .error "json.load failed"
    | none => .error "FileNotFoundError: metadata.json"
  | some _ => .error "faiss.read_index failed"
  | none => .ok (⟨384, []⟩, [])

/-- `load_faiss_index` of src/modules/models.py lines 53-63: read the index
file if present, else create an empty index of the embedding dimension if
allowed, else raise. -/
def load_faiss_index (s : FsState) (create_if_missing : Bool) (dim : Nat) :
    Except String FaissIndex :=
  match fsGet s INDEX_FILE with
  | some (.idx vs) => .ok ⟨384, vs⟩
  | some _ => .error "faiss.read_index failed"
  | none =>
    if create_if_missing then .ok ⟨dim, []⟩
    else .error ("FAISS index not found at " ++ INDEX_FILE)

/-- `load_metadata_store` of src/modules/models.py lines 74-77: empty dict
if the file is missing, else parse it; no count verification against the
index. -/
def load_metadata_store (s : FsState) : Except String MetadataStore :=
  match fsGet s METADATA_FILE with
  | some (.meta ms) => .ok ms
  | some _ => .error "json.load failed"
  | none => .ok []

/-! ## `reset_all`, final recreate-and-flush step (src/api/routes.py 181-205)

```python
    try:
        from modules import embedding_store as es
        dim = get_embedding_dimension()
        if faiss is not None:
            es.index = faiss.IndexFlatL2(dim)
        ...
        with open(os.path.join(VECTOR_DIR, "metadata.json"), "w", ...) as f:
            json.dump({}, f)
    except Exception as e:
        # Non-fatal; continue
        pass
    return {"message": "All data cleared: uploads, vectorstore, processed outputs.", ...}
```

The whole recreate-and-flush step is a parameter (`.error` is any
exception raised inside the `try`); the embedding returns the resulting
in-memory state (if the step succeeded) and the `"message"` field of the
response the caller receives. -/

/-- The `"message"` field `reset_all` returns. -/
def reset_success_message : String :=
  "All data cleared: uploads, vectorstore, processed outputs."

/-- The tail of `reset_all`: run the recreate-and-flush step under
`try/except Exception: pass`, then return the response message. -/
def reset_finalize
    (recreate_and_flush : Except String (FaissIndex × MetadataStore)) :
    Option (FaissIndex × MetadataStore) × String :=
  match recreate_and_flush with
  | .ok st => (some st, reset_success_message)
  | .error _ => (none, reset_success_message)

/-! ## Concrete fixtures for counterexamples and witnesses -/

/-- A consistent persisted state: empty index artifact, empty metadata
artifact. -/
def s0 : FsState := [(INDEX_FILE, .idx []), (METADATA_FILE, .meta [])]

/-- A mismatched persisted state: two vectors in the index artifact but a
single metadata record. -/
def fsBad : FsState := [(INDEX_FILE, .idx [vec0, vec0]), (METADATA_FILE, .meta ms1)]

/-- The persisted state matching `ix1` and `ms1`. -/
def fs1 : FsState := [(INDEX_FILE, .idx [vec0]), (METADATA_FILE, .meta ms1)]

/-- Two queued adds with distinct generated ids. -/
def adds2 : List AddInput :=
  [⟨"id-a", "alpha", "text", "a.pdf", some 1⟩,
   ⟨"id-b", "beta", "image", "b.png", none⟩]

/-! ## Helper lemmas -/

theorem fsGet_fsSet_ne (s : FsState) (p q : String) (c : FileContent)
    (h : q ≠ p) : fsGet (fsSet s p c) q = fsGet s q := by
  induction s with
  | nil => simp [fsSet, fsGet, List.find?, Ne.symm h]
  | cons e rest ih =>
    obtain ⟨k1, c1⟩ := e
    by_cases he : k1 = p
    · subst he
      simp [fsSet, fsGet, List.find?, Ne.symm h]
    · simp only [fsSet, if_neg he]
      by_cases hq : k1 = q
      · subst hq
        simp [fsGet, List.find?]
      · simp only [fsGet, List.find?] at ih ⊢
        simp only [show decide (k1 = q) = false from by simp [hq]]
        exact ih

/-! ## Claim theorems -/

/-- C3: for every query string and every `top_k`, if the vector index is
empty then `retrieve_chunks` returns the empty list and does not raise
(the result is `some []`, never `none`). -/
theorem retrieve_chunks_empty_index_ok (encode : String → List Int)
    (index : FaissIndex) (metadata_store : MetadataStore) (query : String)
    (top_k : Nat) (h : index.ntotal = 0) :
    retrieve_chunks encode index metadata_store query top_k = some [] := by
  unfold retrieve_chunks
  rw [if_pos (Or.inl h)]

theorem retrieve_chunks_empty_index_ok_witness :
    (⟨384, []⟩ : FaissIndex).ntotal = 0 ∧
    retrieve_chunks encode0 ⟨384, []⟩ ms1 "any query" 3 = some [] :=
  ⟨rfl, retrieve_chunks_empty_index_ok encode0 ⟨384, []⟩ ms1 "any query" 3 rfl⟩

/-- C6: for every query and every `top_k`, if the vector index is empty
then `retrieve_answer` returns the fixed "no documents indexed" reply and
makes zero chat (language-model) calls. -/
theorem retrieve_answer_empty_index_no_llm (chat : ChatCall → String)
    (encode : String → List Int) (index : FaissIndex)
    (metadata_store : MetadataStore) (query : String) (top_k : Nat)
    (h : index.ntotal = 0) :
    retrieve_answer chat encode index metadata_store query top_k =
      some (noDocsMsg, []) := by
  unfold retrieve_answer
  rw [if_pos (Or.inl h)]

theorem retrieve_answer_empty_index_no_llm_witness :
    (⟨384, []⟩ : FaissIndex).ntotal = 0 ∧
    retrieve_answer (fun _ => "reply") encode0 ⟨384, []⟩ ms1 "any query" 3 =
      some (noDocsMsg, []) :=
  ⟨rfl,
   retrieve_answer_empty_index_no_llm (fun _ => "reply") encode0 ⟨384, []⟩
     ms1 "any query" 3 rfl⟩

/-- C2: the code does not reject `overlap >= size`; on text `"a"` with
`chunk_size = 1` and `overlap = 1` the loop advances `start` by
`chunk_size - overlap = 0` each iteration and never terminates: for every
amount of fuel the loop is still running (`none`), so the call neither
raises a configuration error nor returns. -/
theorem chunk_overlap_eq_size_diverges (fuel : Nat) :
    chunk_text_with_overlap "a" 1 1 fuel = none := by
  show chunkLoop (pywords "a") 1 1 fuel 0 [] = none
  have hw : pywords "a" = ["a"] := rfl
  rw [hw]
  suffices h : ∀ (f : Nat) (acc : List String), chunkLoop ["a"] 1 1 f 0 acc = none from
    h fuel []
  intro f
  induction f with
  | zero => intro acc; rfl
  | succ g ih =>
    intro acc
    show chunkLoop ["a"] 1 1 (g + 1) 0 acc = none
    unfold chunkLoop
    rw [if_pos (by norm_num)]
    simpa using ih (acc ++ [String.intercalate " " (pySliceList ["a"] 0 (0 + 1))])

/-- C4: with one stored vector, one metadata record and `top_k = 3`,
FAISS pads its label output with `-1`; Python's negative indexing maps
each `-1` to the last metadata key, so `retrieve_chunks` returns 3
results — not `ntotal = 1` — and the padding positions duplicate the last
record. -/
theorem retrieve_chunks_padding_duplicates :
    retrieve_chunks encode0 ix1 ms1 "q" 3 =
      some [("hello world", meta0), ("hello world", meta0),
            ("hello world", meta0)] ∧
    ix1.ntotal = 1 ∧
    (retrieve_chunks encode0 ix1 ms1 "q" 3).map List.length = some 3 := by
  refine ⟨by decide, rfl, by decide⟩

/-- C5: `retrieve_answer` returns the model's reply verbatim as a bare
string — with the oracle replying `"hello"` on every call, the returned
answer is exactly `"hello"` — even though the chunks used carry the
citation `("doc.pdf", page 1)`; no structured `citations` field exists in
the returned value. -/
theorem retrieve_answer_bare_string :
    (retrieve_answer (fun _ => "hello") encode0 ix1 ms1 "q" 1).map
        (fun p => p.1) = some "hello" ∧
    meta0.source_file = "doc.pdf" ∧ meta0.page_num = some 1 ∧
    retrieve_chunks encode0 ix1 ms1 "hello" 1 =
      some [("hello world", meta0)] := by
  refine ⟨by decide, rfl, rfl, by decide⟩

/-- C7 counterexample: `save_index` performs two direct in-place writes
and no rename at all; starting from a consistent persisted state (0
vectors, 0 records), the state after only the first operation has 1
vector in the index artifact but 0 metadata records — an interruption
mid-flush leaves the index artifact newer than the metadata artifact,
violating the count-match invariant. -/
theorem save_index_mid_flush_mismatch :
    idxCount s0 = some 0 ∧ metaCount s0 = some 0 ∧
    idxCount (runOps s0 ((save_index_ops ix1 ms1).take 1)) = some 1 ∧
    metaCount (runOps s0 ((save_index_ops ix1 ms1).take 1)) = some 0 ∧
    (save_index_ops ix1 ms1).countP
      (fun op => match op with | .rename _ _ => true | _ => false) = 0 := by
  refine ⟨rfl, rfl, by decide, by decide, rfl⟩

/-- C7 as amended: for every index, metadata store and prior file-system
state, `save_index` is exactly two direct in-place writes (index artifact
first, then metadata artifact) with no temporary locations and no
renames; after the first operation alone the index artifact holds the new
vectors while the metadata artifact is unchanged. -/
theorem save_index_writes_in_place (index : FaissIndex)
    (metadata_store : MetadataStore) (s : FsState) :
    save_index_ops index metadata_store =
      [.writeFile INDEX_FILE (.idx index.vectors),
       .writeFile METADATA_FILE (.meta metadata_store)] ∧
    runOps s ((save_index_ops index metadata_store).take 1) =
      fsSet s INDEX_FILE (.idx index.vectors) ∧
    fsGet (runOps s ((save_index_ops index metadata_store).take 1))
        METADATA_FILE = fsGet s METADATA_FILE ∧
    runOps s (save_index_ops index metadata_store) =
      fsSet (fsSet s INDEX_FILE (.idx index.vectors)) METADATA_FILE
        (.meta metadata_store) := by
  refine ⟨rfl, rfl, ?_, rfl⟩
  show fsGet (fsSet s INDEX_FILE (.idx index.vectors)) METADATA_FILE =
    fsGet s METADATA_FILE
  exact fsGet_fsSet_ne s INDEX_FILE METADATA_FILE _ (by decide)

/-- C8 counterexample: on a persisted state whose index artifact holds 2
vectors while the metadata artifact holds 1 record, the module-level load
and both centralized loaders succeed (`.ok`) instead of failing loudly;
the mismatch goes undetected. -/
theorem load_mismatch_not_detected :
    embedding_store_load fsBad = .ok (⟨384, [vec0, vec0]⟩, ms1) ∧
    (⟨384, [vec0, vec0]⟩ : FaissIndex).ntotal ≠ ms1.length ∧
    load_faiss_index fsBad true 384 = .ok ⟨384, [vec0, vec0]⟩ ∧
    load_metadata_store fsBad = .ok ms1 := by
  refine ⟨rfl, by decide, rfl, rfl⟩

/-- C8 as amended: whenever both persistence artifacts exist and parse,
the module-level load of `embedding_store` and the loaders of `models`
return them as-is with no count verification — loading succeeds even when
the vector count and the metadata record count disagree, and retrieval is
served over the misaligned stores. -/
theorem load_reads_both_without_check (s : FsState) (vs : List (List Int))
    (ms : MetadataStore) (hidx : fsGet s INDEX_FILE = some (.idx vs))
    (hmeta : fsGet s METADATA_FILE = some (.meta ms)) :
    embedding_store_load s = .ok (⟨384, vs⟩, ms) ∧
    load_faiss_index s true 384 = .ok ⟨384, vs⟩ ∧
    load_metadata_store s = .ok ms := by
  unfold embedding_store_load load_faiss_index load_metadata_store
  rw [hidx, hmeta]
  exact ⟨rfl, rfl, rfl⟩

theorem load_reads_both_without_check_witness :
    fsGet fsBad INDEX_FILE = some (.idx [vec0, vec0]) ∧
    fsGet fsBad METADATA_FILE = some (.meta ms1) ∧
    (embedding_store_load fsBad = .ok (⟨384, [vec0, vec0]⟩, ms1) ∧
     load_faiss_index fsBad true 384 = .ok ⟨384, [vec0, vec0]⟩ ∧
     load_metadata_store fsBad = .ok ms1) :=
  ⟨rfl, rfl, load_reads_both_without_check fsBad [vec0, vec0] ms1 rfl rfl⟩

/-- C9 counterexample: when the recreate-and-flush step of `reset_all`
fails (any exception inside the `try`), the caller still receives exactly
the success message — indistinguishable from a successful reset — while
the in-memory state was not recreated. -/
theorem reset_failure_reports_success :
    (reset_finalize (.error "faiss unavailable")).2 = reset_success_message ∧
    (reset_finalize (.error "faiss unavailable")).1 = none ∧
    (reset_finalize (.ok (⟨384, []⟩, []))).2 = reset_success_message := by
  exact ⟨rfl, rfl, rfl⟩

/-- C9 as amended: failures of the final recreate-and-flush step of
`reset_all` are swallowed by its `try/except Exception: pass`; the
operation returns the success message to the caller regardless of whether
the step succeeded or failed. -/
theorem reset_always_reports_success
    (r : Except String (FaissIndex × MetadataStore)) :
    (reset_finalize r).2 = reset_success_message := by
  cases r <;> rfl

/-! ## The chunker computes sliding windows (claim C1) -/

theorem pySliceList_nonneg {α : Type} (xs : List α) (a b : Int)
    (ha : 0 ≤ a) (hb : 0 ≤ b) :
    pySliceList xs a b = (xs.drop a.toNat).take (b.toNat - a.toNat) := by
  simp only [pySliceList]
  rw [if_neg (by omega), if_neg (by omega)]
  rcases le_or_lt (xs.length : Int) a with h | h
  · rw [List.drop_eq_nil_of_le (show xs.length ≤ (min a (xs.length : Int)).toNat by omega),
      List.drop_eq_nil_of_le (show xs.length ≤ a.toNat by omega)]
    simp
  · rw [min_eq_left (le_of_lt h)]
    rcases le_or_lt b (xs.length : Int) with hb2 | hb2
    · rw [min_eq_left hb2]
      congr 1
      omega
    · rw [min_eq_right (le_of_lt hb2)]
      have hlen : (xs.drop a.toNat).length = xs.length - a.toNat :=
        List.length_drop _ _
      rw [List.take_of_length_le (by rw [hlen]; omega),
        List.take_of_length_le (by rw [hlen]; omega)]

theorem specWindowsAux_congr (size step : Nat) (hstep : 1 ≤ step) :
    ∀ (f g : Nat) (ws : List String), ws.length ≤ f → ws.length ≤ g →
      specWindowsAux size step f ws = specWindowsAux size step g ws := by
  intro f
  induction f with
  | zero =>
    intro g ws hf hg
    have hws : ws = [] := List.eq_nil_of_length_eq_zero (by omega)
    subst hws
    cases g <;> rfl
  | succ f ih =>
    intro g ws hf hg
    cases ws with
    | nil => cases g <;> rfl
    | cons w tl =>
      cases g with
      | zero =>
        simp only [List.length_cons] at hg
        omega
      | succ g =>
        show (w :: tl).take size :: specWindowsAux size step f ((w :: tl).drop step) =
          (w :: tl).take size :: specWindowsAux size step g ((w :: tl).drop step)
        congr 1
        apply ih
        · rw [List.length_drop]
          simp only [List.length_cons] at hf ⊢
          omega
        · rw [List.length_drop]
          simp only [List.length_cons] at hg ⊢
          omega

theorem specWindows_cons (ws : List String) (size step : Nat)
    (h : ws ≠ []) (hstep : 1 ≤ step) :
    specWindows ws size step =
      ws.take size :: specWindows (ws.drop step) size step := by
  cases ws with
  | nil => exact absurd rfl h
  | cons w tl =>
    show (w :: tl).take size :: specWindowsAux size step tl.length ((w :: tl).drop step) =
      (w :: tl).take size :: specWindowsAux size step ((w :: tl).drop step).length
        ((w :: tl).drop step)
    congr 1
    apply specWindowsAux_congr size step hstep
    · rw [List.length_drop]
      simp only [List.length_cons]
      omega
    · exact le_refl _

theorem chunkLoop_succ (words : List String) (size ov : Int) (f : Nat)
    (start : Int) (acc : List String) :
    chunkLoop words size ov (f + 1) start acc =
      if start < (words.length : Int) then
        chunkLoop words size ov f (start + (size - ov))
          (acc ++ [String.intercalate " " (pySliceList words start (start + size))])
      else some acc := rfl

theorem chunkLoop_eq_specWindows (words : List String) (size ov : Int)
    (hsize : 0 < size) (hov : 0 ≤ ov) (hlt : ov < size) :
    ∀ (fuel : Nat) (start : Int) (acc : List String), 0 ≤ start →
      words.length - start.toNat < fuel →
      chunkLoop words size ov fuel start acc =
        some (acc ++ (specWindows (words.drop start.toNat) size.toNat
          (size - ov).toNat).map (String.intercalate " ")) := by
  intro fuel
  induction fuel with
  | zero =>
    intro start acc hs hf
    omega
  | succ f ih =>
    intro start acc hs hf
    rw [chunkLoop_succ]
    by_cases hcond : start < (words.length : Int)
    · rw [if_pos hcond]
      rw [pySliceList_nonneg words start (start + size) hs (by omega)]
      rw [show (start + size).toNat - start.toNat = size.toNat from by omega]
      rw [ih (start + (size - ov)) _ (by omega) (by omega)]
      congr 1
      have hne : words.drop start.toNat ≠ [] := by
        intro hnil
        have hlen := List.length_drop start.toNat words
        rw [hnil] at hlen
        simp at hlen
        omega
      rw [specWindows_cons _ _ _ hne (by omega)]
      rw [List.drop_drop]
      rw [show start.toNat + (size - ov).toNat = (start + (size - ov)).toNat from by omega]
      simp
    · rw [if_neg hcond]
      rw [List.drop_eq_nil_of_le (show words.length ≤ start.toNat by omega)]
      show some acc = some (acc ++ (specWindows [] size.toNat (size - ov).toNat).map
        (String.intercalate " "))
      simp [specWindows, specWindowsAux]

/-- C1 counterexample: with valid parameters (the code's defaults 300 and
50), the whitespace-only text `" "` is a non-empty input string, yet
`chunk_text_with_overlap` returns zero chunks, because splitting on
whitespace yields no words. -/
theorem chunk_whitespace_text_zero_chunks :
    (" " : String) ≠ "" ∧ (0 : Int) < 300 ∧ (0 : Int) ≤ 50 ∧
    (50 : Int) < 300 ∧
    chunk_text_with_overlap " " 300 50 ((pywords " ").length + 1) = some [] := by
  refine ⟨by decide, by decide, by decide, by decide, by decide⟩

/-- C1 as amended: for every text and every valid pair (`0 < size`,
`0 ≤ overlap < size`), the chunker terminates (with fuel one more than
the word count) and returns exactly the sliding windows of `size` words
advancing by `size - overlap` words per step, each joined with single
spaces (the final window possibly shorter); it produces at least one
chunk whenever the text contains at least one non-whitespace word, and
zero chunks when splitting yields no words (empty or whitespace-only
text). -/
theorem chunk_text_with_overlap_windows (text : String)
    (chunk_size overlap : Int) (hsize : 0 < chunk_size)
    (hov : 0 ≤ overlap) (hlt : overlap < chunk_size) :
    chunk_text_with_overlap text chunk_size overlap
        ((pywords text).length + 1) =
      some ((specWindows (pywords text) chunk_size.toNat
        (chunk_size - overlap).toNat).map (String.intercalate " ")) ∧
    (pywords text ≠ [] →
      (specWindows (pywords text) chunk_size.toNat
        (chunk_size - overlap).toNat).map (String.intercalate " ") ≠ []) ∧
    (pywords text = [] →
      chunk_text_with_overlap text chunk_size overlap
        ((pywords text).length + 1) = some []) := by
  have hmain := chunkLoop_eq_specWindows (pywords text) chunk_size overlap
    hsize hov hlt ((pywords text).length + 1) 0 [] (le_refl 0) (by omega)
  refine ⟨?_, ?_, ?_⟩
  · show chunkLoop (pywords text) chunk_size overlap
      ((pywords text).length + 1) 0 [] = _
    simpa using hmain
  · intro hne
    rw [specWindows_cons _ _ _ hne (by omega)]
    simp
  · intro hnil
    show chunkLoop (pywords text) chunk_size overlap
      ((pywords text).length + 1) 0 [] = some []
    rw [hmain, hnil]
    simp [specWindows, specWindowsAux]

theorem chunk_text_with_overlap_windows_witness :
    (0 : Int) < 2 ∧ (0 : Int) ≤ 1 ∧ (1 : Int) < 2 ∧
    (chunk_text_with_overlap "a b c" 2 1 ((pywords "a b c").length + 1) =
      some ((specWindows (pywords "a b c") (2 : Int).toNat
        ((2 : Int) - 1).toNat).map (String.intercalate " ")) ∧
     (pywords "a b c" ≠ [] →
       (specWindows (pywords "a b c") (2 : Int).toNat
         ((2 : Int) - 1).toNat).map (String.intercalate " ") ≠ []) ∧
     (pywords "a b c" = [] →
       chunk_text_with_overlap "a b c" 2 1 ((pywords "a b c").length + 1) =
         some [])) :=
  ⟨by decide, by decide, by decide,
   chunk_text_with_overlap_windows "a b c" 2 1 (by decide) (by decide)
     (by decide)⟩

/-! ## Metadata-store invariants under adds (claim C10) -/

theorem dictGet_dictSet_self (ms : MetadataStore) (k : String) (v : ChunkMeta) :
    dictGet (dictSet ms k v) k = some v := by
  induction ms with
  | nil => simp [dictSet, dictGet, List.find?]
  | cons e rest ih =>
    obtain ⟨k1, v1⟩ := e
    by_cases h : k1 = k
    · subst h
      simp [dictSet, dictGet, List.find?]
    · simp only [dictSet, if_neg h]
      simp only [dictGet, List.find?] at ih ⊢
      simp only [show decide (k1 = k) = false from by simp [h]]
      exact ih

theorem dictGet_dictSet_ne (ms : MetadataStore) (k k' : String) (v : ChunkMeta)
    (h : k' ≠ k) : dictGet (dictSet ms k v) k' = dictGet ms k' := by
  induction ms with
  | nil => simp [dictSet, dictGet, List.find?, Ne.symm h]
  | cons e rest ih =>
    obtain ⟨k1, v1⟩ := e
    by_cases he : k1 = k
    · subst he
      simp [dictSet, dictGet, List.find?, Ne.symm h]
    · simp only [dictSet, if_neg he]
      by_cases hq : k1 = k'
      · subst hq
        simp [dictGet, List.find?]
      · simp only [dictGet, List.find?] at ih ⊢
        simp only [show decide (k1 = k') = false from by simp [hq]]
        exact ih

theorem dictSet_keys_of_not_mem (ms : MetadataStore) (k : String)
    (v : ChunkMeta) (h : k ∉ ms.map (fun p => p.1)) :
    (dictSet ms k v).map (fun p => p.1) = ms.map (fun p => p.1) ++ [k] := by
  induction ms with
  | nil => rfl
  | cons e rest ih =>
    obtain ⟨k1, v1⟩ := e
    simp only [List.map_cons, List.mem_cons] at h
    push_neg at h
    obtain ⟨hk1, hrest⟩ := h
    simp only [dictSet, if_neg (Ne.symm hk1), List.map_cons]
    rw [ih hrest]
    rfl

theorem dictGet_mem (ms : MetadataStore) (k : String) (v : ChunkMeta)
    (h : dictGet ms k = some v) : (k, v) ∈ ms := by
  unfold dictGet at h
  cases hf : ms.find? (fun p => decide (p.1 = k)) with
  | none =>
    rw [hf] at h
    exact absurd h (by simp)
  | some p =>
    rw [hf] at h
    have hp := List.find?_some hf
    have hmem := List.mem_of_find?_eq_some hf
    obtain ⟨p1, p2⟩ := p
    simp at hp h
    rw [← hp, ← h]
    exact hmem

theorem addAllMeta_spec :
    ∀ (inputs : List AddInput) (ms : MetadataStore),
      (∀ i ∈ inputs, i.chunk_id ∉ ms.map (fun p => p.1)) →
      (inputs.map (fun i => i.chunk_id)).Nodup →
      (addAllMeta ms inputs).map (fun p => p.1) =
          ms.map (fun p => p.1) ++ inputs.map (fun i => i.chunk_id) ∧
      (∀ i ∈ inputs,
        dictGet (addAllMeta ms inputs) i.chunk_id = some (mkMeta i)) ∧
      (∀ k, k ∉ inputs.map (fun i => i.chunk_id) →
        dictGet (addAllMeta ms inputs) k = dictGet ms k) := by
  intro inputs
  induction inputs with
  | nil =>
    intro ms hfresh hnodup
    refine ⟨by simp [addAllMeta], by simp, fun k _ => rfl⟩
  | cons i rest ih =>
    intro ms hfresh hnodup
    have hstep : addAllMeta ms (i :: rest) =
        addAllMeta (dictSet ms i.chunk_id (mkMeta i)) rest := rfl
    have hifresh : i.chunk_id ∉ ms.map (fun p => p.1) := hfresh i (by simp)
    have hkeys : (dictSet ms i.chunk_id (mkMeta i)).map (fun p => p.1) =
        ms.map (fun p => p.1) ++ [i.chunk_id] :=
      dictSet_keys_of_not_mem ms i.chunk_id (mkMeta i) hifresh
    rw [List.map_cons, List.nodup_cons] at hnodup
    obtain ⟨hnod, hnodrest⟩ := hnodup
    have hfresh2 : ∀ j ∈ rest,
        j.chunk_id ∉ (dictSet ms i.chunk_id (mkMeta i)).map (fun p => p.1) := by
      intro j hj
      rw [hkeys]
      simp only [List.mem_append, List.mem_singleton]
      push_neg
      refine ⟨hfresh j (by simp [hj]), ?_⟩
      intro he
      apply hnod
      rw [← he]
      exact List.mem_map_of_mem _ hj
    obtain ⟨ih1, ih2, ih3⟩ := ih (dictSet ms i.chunk_id (mkMeta i)) hfresh2 hnodrest
    refine ⟨?_, ?_, ?_⟩
    · rw [hstep, ih1, hkeys]
      simp
    · intro j hj
      rcases List.mem_cons.mp hj with he | hr
      · subst he
        rw [hstep, ih3 j.chunk_id hnod]
        exact dictGet_dictSet_self ms j.chunk_id (mkMeta j)
      · rw [hstep]
        exact ih2 j hr
    · intro k hk
      simp only [List.map_cons, List.mem_cons] at hk
      push_neg at hk
      rw [hstep, ih3 k hk.2]
      exact dictGet_dictSet_ne ms i.chunk_id k (mkMeta i) hk.1

theorem runAdds_snd (encode : String → List Int) (inputs : List AddInput) :
    (runAdds encode inputs).2 = addAllMeta [] inputs := by
  suffices h : ∀ (l : List AddInput) (st : FaissIndex × MetadataStore),
      (l.foldl (fun st inp => add_to_index encode st inp.chunk_id inp.text
        inp.modality inp.source_file inp.page_num) st).2 = addAllMeta st.2 l from
    h inputs (⟨384, []⟩, [])
  intro l
  induction l with
  | nil => intro st; rfl
  | cons i rest ih =>
    intro st
    show (rest.foldl _ (add_to_index encode st i.chunk_id i.text i.modality
      i.source_file i.page_num)).2 = addAllMeta st.2 (i :: rest)
    rw [ih (add_to_index encode st i.chunk_id i.text i.modality
      i.source_file i.page_num)]
    rfl

/-- C10: after any sequence of `add_to_index` calls starting from the
empty store, provided the generated uuids are pairwise distinct: the
stored keys are exactly the generated ids in insertion order (so no add
ever overwrites an earlier key), each key maps to the record of its own
add, and every record's `id` field equals the key under which it is
stored. -/
theorem runAdds_metadata_invariant (encode : String → List Int)
    (inputs : List AddInput)
    (hnodup : (inputs.map (fun i => i.chunk_id)).Nodup) :
    ((runAdds encode inputs).2).map (fun p => p.1) =
        inputs.map (fun i => i.chunk_id) ∧
    (∀ i ∈ inputs,
      dictGet (runAdds encode inputs).2 i.chunk_id = some (mkMeta i)) ∧
    (∀ k v, dictGet (runAdds encode inputs).2 k = some v → v.id = k) := by
  obtain ⟨h1, h2, _⟩ := addAllMeta_spec inputs [] (by simp) hnodup
  rw [runAdds_snd]
  refine ⟨by simpa using h1, h2, ?_⟩
  intro k v hkv
  have hmem := dictGet_mem _ _ _ hkv
  have hkin : k ∈ (addAllMeta [] inputs).map (fun p => p.1) :=
    List.mem_map_of_mem _ hmem
  rw [h1] at hkin
  simp only [List.map_nil, List.nil_append] at hkin
  obtain ⟨i, hi, hik⟩ := List.mem_map.mp hkin
  have hgi := h2 i hi
  rw [hik] at hgi
  have hv : mkMeta i = v := Option.some.inj (hgi.symm.trans hkv)
  rw [← hv, ← hik]
  rfl

theorem runAdds_metadata_invariant_witness :
    (adds2.map (fun i => i.chunk_id)).Nodup ∧
    (((runAdds encode0 adds2).2).map (fun p => p.1) =
        adds2.map (fun i => i.chunk_id) ∧
     (∀ i ∈ adds2,
       dictGet (runAdds encode0 adds2).2 i.chunk_id = some (mkMeta i)) ∧
     (∀ k v, dictGet (runAdds encode0 adds2).2 k = some v → v.id = k)) :=
  ⟨by decide, runAdds_metadata_invariant encode0 adds2 (by decide)⟩
